import Mathlib

/-!
Shallow embedding of the name-registration program in `src/main.rs`.

The program stores a Borsh-serialized `NameRecord { name: String, owner: Pubkey,
created_at: i64 }` in a fixed 256-byte account buffer.  Bytes are modelled as
`Nat` (with explicit `% 256` / `% 2 ^ 64` arithmetic where the code performs
machine arithmetic), byte buffers as `List Nat`, and the fallible Solana
environment calls (`Rent::get`, `invoke(create_account)`, `Clock::get`) as an
explicit `Env` record of `Except` results.
-/

namespace Sns

/-- `const MAX_NAME_LENGTH: usize = 64;` from `src/main.rs`. -/
def MAX_NAME_LENGTH : Nat := 64

/-- `const MAX_RECORD_SIZE: usize = 256;` from `src/main.rs`. -/
def MAX_RECORD_SIZE : Nat := 256

/-- Little-endian byte encoding of a natural number in `width` bytes,
as produced by `u32::to_le_bytes` / `u64::to_le_bytes`. -/
def natToLe : Nat → Nat → List Nat
  | 0, _ => []
  | w + 1, n => n % 256 :: natToLe w (n / 256)

/-- Value of a little-endian byte sequence, as consumed by
`u32::from_le_bytes` / `u64::from_le_bytes`. -/
def leToNat : List Nat → Nat
  | [] => 0
  | b :: bs => b + 256 * leToNat bs

/-- Two's-complement reading of an 8-byte little-endian sequence as an `i64`,
as done by Borsh when deserializing `i64`. -/
def intFromLeBytes (l : List Nat) : Int :=
  let n := leToNat l
  if n < 2 ^ 63 then (n : Int) else (n : Int) - 2 ^ 64

/-- Two's-complement 8-byte little-endian encoding of an `i64`, as done by
Borsh when serializing `i64` (`to_le_bytes` of the two's-complement value). -/
def i64ToLe (x : Int) : List Nat :=
  natToLe 8 (x % (2 ^ 64 : Int)).toNat

/-- Classification of a UTF-8 leading byte, per RFC 3629 (what Rust's
`String::from_utf8` validates): `some (k, lo, hi)` means the byte opens a
sequence with `k` continuation bytes, the first of which must lie in
`[lo, hi)`; `none` means the byte can not open a sequence. -/
def leadClass (b : Nat) : Option (Nat × Nat × Nat) :=
  if b < 128 then some (0, 0, 0)
  else if b < 194 then none
  else if b < 224 then some (1, 128, 192)
  else if b = 224 then some (2, 160, 192)
  else if b < 237 then some (2, 128, 192)
  else if b = 237 then some (2, 128, 160)
  else if b < 240 then some (2, 128, 192)
  else if b = 240 then some (3, 144, 192)
  else if b < 244 then some (3, 128, 192)
  else if b = 244 then some (3, 128, 144)
  else none

/-- State-machine core of UTF-8 validation: `need` is the number of pending
continuation bytes, the next of which must lie in `[lo, hi)` (subsequent
ones in `[128, 192)`). -/
def validUtf8Aux : Nat → Nat → Nat → List Nat → Bool
  | 0, _, _, [] => true
  | _ + 1, _, _, [] => false
  | 0, _, _, b :: rest =>
    match leadClass b with
    | none => false
    | some (need, lo, hi) => validUtf8Aux need lo hi rest
  | k + 1, lo, hi, b :: rest =>
    decide (lo ≤ b) && decide (b < hi) && validUtf8Aux k 128 192 rest

/-- Whether a byte sequence is valid UTF-8, i.e. whether
`String::from_utf8` succeeds on it (RFC 3629). -/
def validUtf8 (l : List Nat) : Bool :=
  validUtf8Aux 0 0 0 l

/-- The `NameRecord` struct of `src/main.rs`.  The Rust `String` is modelled
by its UTF-8 byte sequence (Rust `String` equality is byte equality), the
`Pubkey` by its 32-byte sequence, and the `i64` by an `Int` (bounded by the
theorems' hypotheses where the bound matters). -/
structure NameRecord where
  name : List Nat
  owner : List Nat
  created_at : Int
  deriving DecidableEq

/-- Borsh serialization of a `String`: 4-byte little-endian `u32` length
followed by the UTF-8 bytes. -/
def serializeString (s : List Nat) : List Nat :=
  natToLe 4 s.length ++ s

/-- Borsh serialization of `NameRecord` (derived `BorshSerialize`): the
fields in declaration order — `name`, then the raw 32 `owner` bytes, then
the 8-byte little-endian `created_at`. -/
def serializeNameRecord (r : NameRecord) : List Nat :=
  serializeString r.name ++ r.owner ++ i64ToLe r.created_at

/-- Reading `k` bytes from the front of a buffer (`read_exact`): fails when
fewer than `k` bytes remain. -/
def readBytes (k : Nat) (l : List Nat) : Option (List Nat × List Nat) :=
  if k ≤ l.length then some (l.take k, l.drop k) else none

/-- Borsh deserialization of a `String`: read a 4-byte `u32` length, read
that many bytes, and validate them as UTF-8 (`String::from_utf8`). -/
def deserializeString (l : List Nat) : Option (List Nat × List Nat) :=
  match readBytes 4 l with
  | none => none
  | some (lenBytes, r1) =>
    match readBytes (leToNat lenBytes) r1 with
    | none => none
    | some (nameBytes, r2) =>
      if validUtf8 nameBytes then some (nameBytes, r2) else none

/-- Borsh deserialization of a `Pubkey`: exactly 32 raw bytes. -/
def deserializePubkey (l : List Nat) : Option (List Nat × List Nat) :=
  readBytes 32 l

/-- Borsh deserialization of an `i64`: 8 bytes, two's-complement little
endian. -/
def deserializeI64 (l : List Nat) : Option (Int × List Nat) :=
  match readBytes 8 l with
  | none => none
  | some (tsBytes, r1) => some (intFromLeBytes tsBytes, r1)

/-- Borsh deserialization of `NameRecord` (derived `BorshDeserialize`): the
fields in declaration order.  Like Borsh's `deserialize` (and unlike
`try_from_slice`), it does not require the buffer to be fully consumed:
the unread remainder is returned alongside the record. -/
def deserializeNameRecord (l : List Nat) : Option (NameRecord × List Nat) :=
  match deserializeString l with
  | none => none
  | some (nameBytes, r1) =>
    match deserializePubkey r1 with
    | none => none
    | some (ownerBytes, r2) =>
      match deserializeI64 r2 with
      | none => none
      | some (ts, r3) => some (⟨nameBytes, ownerBytes, ts⟩, r3)

/-- The `ProgramError` variants the program can produce (plus `Custom` as a
stand-in for any other error value an external call may return). -/
inductive ProgramError where
  | InvalidInstructionData
  | NotEnoughAccountKeys
  | BorshIoError
  | Custom (n : Nat)
  deriving DecidableEq

/-- An `AccountInfo` as the program uses it: its public key and its data
buffer. -/
structure Account where
  key : List Nat
  data : List Nat
  deriving DecidableEq

/-- Outcomes of the external environment calls the program makes, in
`register_name`: `Rent::get` (whose payload is the `minimum_balance`
function), `invoke(create_account)`, and `Clock::get` (whose payload is
`unix_timestamp`). -/
structure Env where
  rent : Except ProgramError (Nat → Nat)
  alloc : Except ProgramError Unit
  clock : Except ProgramError Int

/-- The `system_instruction::create_account` request issued through
`invoke`: funding key, new account key, lamports, space, and owner program
id. -/
structure AllocRequest where
  fromKey : List Nat
  toKey : List Nat
  lamports : Nat
  space : Nat
  ownerId : List Nat
  deriving DecidableEq

/-- Observable outcome of `register_name`: the `create_account` request it
issued (if it got that far) and its result, whose success payload is the
name account's data buffer after the record write. -/
structure RegisterTrace where
  allocRequest : Option AllocRequest
  result : Except ProgramError (List Nat)

/-- `record.serialize(&mut &mut buf[..])`: Borsh writing through the
`io::Write` instance of a mutable byte slice writes the encoding at offset 0
and leaves the rest of the slice unchanged; it fails (`WriteZero`, surfaced
as a Borsh io error) when the encoding does not fit. -/
def serializeInto (enc buf : List Nat) : Except ProgramError (List Nat) :=
  if enc.length ≤ buf.length then .ok (enc ++ buf.drop enc.length)
  else .error .BorshIoError

/-- `register_name` from `src/main.rs`: validate the name length, validate
UTF-8, query rent, issue `create_account` for `MAX_RECORD_SIZE` bytes (a
successful `create_account` leaves the account with `space` zeroed bytes),
read the clock, and serialize the record into the fresh buffer. -/
def register_name (env : Env) (program_id : List Nat) (payer name_account : Account)
    (name_data : List Nat) : RegisterTrace :=
  if name_data.length = 0 ∨ MAX_NAME_LENGTH < name_data.length then
    ⟨none, .error .InvalidInstructionData⟩
  else if validUtf8 name_data then
    match env.rent with
    | .error e => ⟨none, .error e⟩
    | .ok minimum_balance =>
      let space := MAX_RECORD_SIZE
      let rent_lamports := minimum_balance space
      let req : AllocRequest := ⟨payer.key, name_account.key, rent_lamports, space, program_id⟩
      match env.alloc with
      | .error e => ⟨some req, .error e⟩
      | .ok _ =>
        match env.clock with
        | .error e => ⟨some req, .error e⟩
        | .ok now =>
          let record : NameRecord := ⟨name_data, payer.key, now⟩
          match serializeInto (serializeNameRecord record) (List.replicate space 0) with
          | .ok buf => ⟨some req, .ok buf⟩
          | .error e => ⟨some req, .error e⟩
  else ⟨none, .error .InvalidInstructionData⟩

/-- `resolve_name` from `src/main.rs`: deserialize the record from the
account data (taken by immutable borrow, so the buffer is passed through
unchanged as the second component) and return it. -/
def resolve_name (slotData : List Nat) : Except ProgramError NameRecord × List Nat :=
  match deserializeNameRecord slotData with
  | some (record, _) => (.ok record, slotData)
  | none => (.error .BorshIoError, slotData)

/-- `process_instruction` from `src/main.rs`: reject an empty instruction
buffer, split off the opcode byte, extract the three required accounts
(`next_account_info` fails with `NotEnoughAccountKeys` when the iterator is
exhausted), then dispatch on the opcode. -/
def process_instruction (env : Env) (program_id : List Nat) (accounts : List Account)
    (instruction_data : List Nat) : Except ProgramError Unit :=
  match instruction_data with
  | [] => .error .InvalidInstructionData
  | instruction :: name_data =>
    match accounts with
    | payer :: name_account :: _system_program :: _ =>
      match instruction with
      | 0 =>
        match (register_name env program_id payer name_account name_data).result with
        | .ok _ => .ok ()
        | .error e => .error e
      | 1 =>
        match (resolve_name name_account.data).1 with
        | .ok _ => .ok ()
        | .error e => .error e
      | _ => .error .InvalidInstructionData
    | _ => .error .NotEnoughAccountKeys

/-! ### Helper lemmas about the byte-level codec -/

theorem length_natToLe (w n : Nat) : (natToLe w n).length = w := by
  induction w generalizing n with
  | zero => rfl
  | succ w ih => simp [natToLe, ih]

theorem leToNat_natToLe (w n : Nat) : leToNat (natToLe w n) = n % 256 ^ w := by
  induction w generalizing n with
  | zero => simp [natToLe, leToNat, Nat.mod_one]
  | succ w ih =>
    rw [natToLe, leToNat, ih, pow_succ, mul_comm (256 ^ w) 256, Nat.mod_mul]

theorem leToNat_natToLe_of_lt {w n : Nat} (h : n < 256 ^ w) :
    leToNat (natToLe w n) = n := by
  rw [leToNat_natToLe, Nat.mod_eq_of_lt h]

theorem intFromLeBytes_i64ToLe {x : Int} (hlo : -(2 ^ 63) ≤ x) (hhi : x < 2 ^ 63) :
    intFromLeBytes (i64ToLe x) = x := by
  have hmod : (0:Int) ≤ x % (2 ^ 64 : Int) := Int.emod_nonneg x (by norm_num)
  have hmodlt : x % (2 ^ 64 : Int) < 2 ^ 64 := Int.emod_lt_of_pos x (by norm_num)
  have hlt : (x % (2 ^ 64 : Int)).toNat < 256 ^ 8 := by
    have : (256:Nat) ^ 8 = 2 ^ 64 := by norm_num
    rw [this]
    omega
  rw [i64ToLe, intFromLeBytes, leToNat_natToLe_of_lt hlt]
  have hcase : x % (2 ^ 64 : Int) = x ∨ x % (2 ^ 64 : Int) = x + 2 ^ 64 := by
    omega
  split <;> omega

theorem readBytes_append {k : Nat} {l1 l2 : List Nat} (h : l1.length = k) :
    readBytes k (l1 ++ l2) = some (l1, l2) := by
  rw [readBytes, if_pos (by simp [h]), List.take_left' h, List.drop_left' h]

/-- Borsh decoding is left inverse to Borsh encoding on any record whose
name is valid UTF-8 of length below `2 ^ 32`, whose owner is 32 bytes and
whose timestamp fits in an `i64`; trailing bytes are returned untouched. -/
theorem deserializeNameRecord_serializeNameRecord (r : NameRecord) (extra : List Nat)
    (hname : r.name.length < 2 ^ 32) (hutf : validUtf8 r.name = true)
    (howner : r.owner.length = 32)
    (hlo : -(2 ^ 63) ≤ r.created_at) (hhi : r.created_at < 2 ^ 63) :
    deserializeNameRecord (serializeNameRecord r ++ extra) = some (r, extra) := by
  have hlen : leToNat (natToLe 4 r.name.length) = r.name.length :=
    leToNat_natToLe_of_lt (by norm_num at hname ⊢; omega)
  have hl4 :
      readBytes 4
        (natToLe 4 r.name.length ++
          (r.name ++ (r.owner ++ (i64ToLe r.created_at ++ extra)))) =
      some (natToLe 4 r.name.length,
        r.name ++ (r.owner ++ (i64ToLe r.created_at ++ extra))) :=
    readBytes_append (length_natToLe 4 _)
  have hlName :
      readBytes r.name.length (r.name ++ (r.owner ++ (i64ToLe r.created_at ++ extra))) =
      some (r.name, r.owner ++ (i64ToLe r.created_at ++ extra)) :=
    readBytes_append rfl
  have hlOwner :
      readBytes 32 (r.owner ++ (i64ToLe r.created_at ++ extra)) =
      some (r.owner, i64ToLe r.created_at ++ extra) :=
    readBytes_append howner
  have hlTs :
      readBytes 8 (i64ToLe r.created_at ++ extra) = some (i64ToLe r.created_at, extra) :=
    readBytes_append (length_natToLe 8 _)
  simp [serializeNameRecord, serializeString, List.append_assoc,
    deserializeNameRecord, deserializeString, deserializePubkey, deserializeI64,
    hl4, hlName, hlOwner, hlTs, hlen, hutf, intFromLeBytes_i64ToLe hlo hhi]

/-! ### Claim theorems -/

/-- Claim C3: for every valid record `r` (name of byte length 1..=64 in
UTF-8, arbitrary 32-byte owner identity, arbitrary signed 64-bit timestamp),
decoding the encoding of `r` yields `r`. -/
theorem decode_encode_roundtrip (r : NameRecord)
    (h1 : 1 ≤ r.name.length) (h64 : r.name.length ≤ MAX_NAME_LENGTH)
    (hutf : validUtf8 r.name = true) (howner : r.owner.length = 32)
    (hlo : -(2 ^ 63) ≤ r.created_at) (hhi : r.created_at < 2 ^ 63) :
    deserializeNameRecord (serializeNameRecord r) = some (r, []) := by
  have h := deserializeNameRecord_serializeNameRecord r []
    (by simp [MAX_NAME_LENGTH] at h64; omega) hutf howner hlo hhi
  simpa using h

theorem decode_encode_roundtrip_witness :
    deserializeNameRecord
        (serializeNameRecord ⟨[101, 120, 97], List.replicate 32 5, -1⟩) =
      some (⟨[101, 120, 97], List.replicate 32 5, -1⟩, []) :=
  decode_encode_roundtrip ⟨[101, 120, 97], List.replicate 32 5, -1⟩
    (by decide) (by decide) (by decide) (by decide) (by decide) (by decide)

/-- Claim C6: for every valid record (name of byte length 1..=64, 32-byte
owner), the length of its encoding is at most `MAX_RECORD_SIZE = 256`
bytes. -/
theorem encoded_record_size_bound (r : NameRecord)
    (h1 : 1 ≤ r.name.length) (h64 : r.name.length ≤ MAX_NAME_LENGTH)
    (howner : r.owner.length = 32) :
    (serializeNameRecord r).length ≤ MAX_RECORD_SIZE := by
  simp [serializeNameRecord, serializeString, i64ToLe, List.length_append,
    length_natToLe, howner, MAX_NAME_LENGTH, MAX_RECORD_SIZE] at h64 ⊢
  omega

theorem encoded_record_size_bound_witness :
    (serializeNameRecord ⟨List.replicate 64 97, List.replicate 32 5, 0⟩).length ≤
      MAX_RECORD_SIZE :=
  encoded_record_size_bound ⟨List.replicate 64 97, List.replicate 32 5, 0⟩
    (by decide) (by decide) (by decide)

/-- Claim C7: for every valid record, the encoding consists of the 4-byte
little-endian length of the name, the UTF-8 name bytes, the 32-byte owner,
and the 8-byte signed little-endian timestamp, in that order starting at
offset 0. -/
theorem encoded_record_layout (r : NameRecord)
    (h1 : 1 ≤ r.name.length) (h64 : r.name.length ≤ MAX_NAME_LENGTH)
    (howner : r.owner.length = 32)
    (hlo : -(2 ^ 63) ≤ r.created_at) (hhi : r.created_at < 2 ^ 63) :
    (serializeNameRecord r).take 4 = natToLe 4 r.name.length ∧
    leToNat ((serializeNameRecord r).take 4) = r.name.length ∧
    ((serializeNameRecord r).drop 4).take r.name.length = r.name ∧
    ((serializeNameRecord r).drop (4 + r.name.length)).take 32 = r.owner ∧
    (serializeNameRecord r).drop (4 + r.name.length + 32) = i64ToLe r.created_at ∧
    intFromLeBytes ((serializeNameRecord r).drop (4 + r.name.length + 32)) =
      r.created_at := by
  have hassoc : serializeNameRecord r =
      natToLe 4 r.name.length ++ (r.name ++ (r.owner ++ i64ToLe r.created_at)) := by
    simp [serializeNameRecord, serializeString, List.append_assoc]
  have h4 : (natToLe 4 r.name.length).length = 4 := length_natToLe 4 _
  have htake4 : (serializeNameRecord r).take 4 = natToLe 4 r.name.length := by
    rw [hassoc, List.take_left' h4]
  have hdrop4 : (serializeNameRecord r).drop 4 =
      r.name ++ (r.owner ++ i64ToLe r.created_at) := by
    rw [hassoc, List.drop_left' h4]
  have hdropName : (serializeNameRecord r).drop (4 + r.name.length) =
      r.owner ++ i64ToLe r.created_at := by
    rw [← List.drop_drop, hdrop4, List.drop_left' rfl]
  have hdropOwner : (serializeNameRecord r).drop (4 + r.name.length + 32) =
      i64ToLe r.created_at := by
    rw [← List.drop_drop, hdropName, List.drop_left' howner]
  refine ⟨htake4, ?_, ?_, ?_, hdropOwner, ?_⟩
  · rw [htake4]
    exact leToNat_natToLe_of_lt
      (by simp [MAX_NAME_LENGTH] at h64; norm_num; omega)
  · rw [hdrop4, List.take_left' rfl]
  · rw [hdropName, List.take_left' howner]
  · rw [hdropOwner]
    exact intFromLeBytes_i64ToLe hlo hhi

theorem encoded_record_layout_witness :
    (serializeNameRecord ⟨[97, 98], List.replicate 32 9, 7⟩).take 4 =
        natToLe 4 2 ∧
      leToNat ((serializeNameRecord ⟨[97, 98], List.replicate 32 9, 7⟩).take 4) = 2 ∧
      ((serializeNameRecord ⟨[97, 98], List.replicate 32 9, 7⟩).drop 4).take 2 =
        [97, 98] ∧
      ((serializeNameRecord ⟨[97, 98], List.replicate 32 9, 7⟩).drop 6).take 32 =
        List.replicate 32 9 ∧
      (serializeNameRecord ⟨[97, 98], List.replicate 32 9, 7⟩).drop 38 = i64ToLe 7 ∧
      intFromLeBytes ((serializeNameRecord ⟨[97, 98], List.replicate 32 9, 7⟩).drop 38) =
        7 :=
  encoded_record_layout ⟨[97, 98], List.replicate 32 9, 7⟩
    (by decide) (by decide) (by decide) (by decide) (by decide)

/-- Claim C9: Resolve never mutates the slot: for every slot buffer, the
buffer after `resolve_name` equals the buffer before, whether decoding
succeeds or fails (the source takes only an immutable borrow of the
account data). -/
theorem resolve_preserves_slot (slotData : List Nat) :
    (resolve_name slotData).2 = slotData := by
  rw [resolve_name]
  split <;> rfl

/-- Claim C10: for every byte buffer whose prefix is a valid encoding of
some record, decoding as done by Resolve succeeds and returns that record,
with any trailing bytes ignored rather than reported as an error. -/
theorem decode_ignores_trailing_bytes (r : NameRecord) (extra : List Nat)
    (h1 : 1 ≤ r.name.length) (h64 : r.name.length ≤ MAX_NAME_LENGTH)
    (hutf : validUtf8 r.name = true) (howner : r.owner.length = 32)
    (hlo : -(2 ^ 63) ≤ r.created_at) (hhi : r.created_at < 2 ^ 63) :
    deserializeNameRecord (serializeNameRecord r ++ extra) = some (r, extra) ∧
    (resolve_name (serializeNameRecord r ++ extra)).1 = .ok r := by
  have h := deserializeNameRecord_serializeNameRecord r extra
    (by simp [MAX_NAME_LENGTH] at h64; omega) hutf howner hlo hhi
  exact ⟨h, by simp [resolve_name, h]⟩

theorem decode_ignores_trailing_bytes_witness :
    deserializeNameRecord
        (serializeNameRecord ⟨[97], List.replicate 32 2, 3⟩ ++ [255, 254, 253]) =
      some (⟨[97], List.replicate 32 2, 3⟩, [255, 254, 253]) ∧
    (resolve_name
        (serializeNameRecord ⟨[97], List.replicate 32 2, 3⟩ ++ [255, 254, 253])).1 =
      .ok ⟨[97], List.replicate 32 2, 3⟩ :=
  decode_ignores_trailing_bytes ⟨[97], List.replicate 32 2, 3⟩ [255, 254, 253]
    (by decide) (by decide) (by decide) (by decide) (by decide) (by decide)

/-! ### Register-level claims -/

/-- Concrete environment and accounts for the witness theorems: all three
external calls succeed. -/
def envOkW : Env := ⟨.ok fun _ => 1000, .ok (), .ok 1234567890⟩

def pidW : List Nat := List.replicate 32 3

def payerW : Account := ⟨List.replicate 32 1, []⟩

def acctW : Account := ⟨List.replicate 32 2, []⟩

def sysW : Account := ⟨List.replicate 32 0, []⟩

/-- Claim C4: for every raw name byte sequence that is empty, longer than 64
bytes, or not valid UTF-8, Register fails with `InvalidInput`
(`InvalidInstructionData`), issues no slot-allocation request, and consults
none of the external collaborators (the conclusion holds for every `env`,
so neither rent, allocator, clock nor codec is reached). -/
theorem register_rejects_invalid_name (env : Env) (program_id : List Nat)
    (payer name_account : Account) (name_data : List Nat)
    (h : name_data.length = 0 ∨ MAX_NAME_LENGTH < name_data.length ∨
      validUtf8 name_data = false) :
    register_name env program_id payer name_account name_data =
      ⟨none, .error .InvalidInstructionData⟩ := by
  rw [register_name]
  by_cases hlen : name_data.length = 0 ∨ MAX_NAME_LENGTH < name_data.length
  · rw [if_pos hlen]
  · rcases h with h | h | h
    · exact absurd (Or.inl h) hlen
    · exact absurd (Or.inr h) hlen
    · rw [if_neg hlen, h]
      simp

theorem register_rejects_invalid_name_witness :
    register_name envOkW pidW payerW acctW [] =
      ⟨none, .error .InvalidInstructionData⟩ :=
  register_rejects_invalid_name envOkW pidW payerW acctW [] (Or.inl rfl)

/-- Claim C8: every Register call that passes name validation (and whose
rent query answers) issues a `create_account` request for exactly
`MAX_RECORD_SIZE = 256` bytes, independent of the name's actual length. -/
theorem register_alloc_request_size (env : Env) (program_id : List Nat)
    (payer name_account : Account) (name_data : List Nat)
    (minimum_balance : Nat → Nat)
    (h0 : name_data.length ≠ 0) (h64 : name_data.length ≤ MAX_NAME_LENGTH)
    (hutf : validUtf8 name_data = true) (hrent : env.rent = .ok minimum_balance) :
    (register_name env program_id payer name_account name_data).allocRequest =
      some ⟨payer.key, name_account.key, minimum_balance MAX_RECORD_SIZE,
        MAX_RECORD_SIZE, program_id⟩ := by
  have hlen : ¬(name_data.length = 0 ∨ MAX_NAME_LENGTH < name_data.length) := by
    push_neg
    exact ⟨h0, by omega⟩
  rw [register_name, if_neg hlen, if_pos hutf, hrent]
  cases halloc : env.alloc with
  | error e => simp
  | ok u =>
    cases hclock : env.clock with
    | error e => simp
    | ok now =>
      cases hser : serializeInto (serializeNameRecord ⟨name_data, payer.key, now⟩)
          (List.replicate MAX_RECORD_SIZE 0) with
      | ok buf => simp [hser]
      | error e => simp [hser]

theorem register_alloc_request_size_witness :
    (register_name envOkW pidW payerW acctW [97]).allocRequest =
      some ⟨payerW.key, acctW.key, 1000, MAX_RECORD_SIZE, pidW⟩ :=
  register_alloc_request_size envOkW pidW payerW acctW [97] (fun _ => 1000)
    (by decide) (by decide) (by decide) rfl

/-- Successful Register runs are exactly characterized: the name passed
validation, clock answered some `now`, and the slot holds the encoded
record followed by the zero padding of the freshly allocated 256-byte
buffer. -/
theorem register_ok_elim {env : Env} {program_id : List Nat}
    {payer name_account : Account} {name_data buf : List Nat}
    (hok : (register_name env program_id payer name_account name_data).result =
      .ok buf) :
    name_data.length ≠ 0 ∧ name_data.length ≤ MAX_NAME_LENGTH ∧
    validUtf8 name_data = true ∧
    ∃ now, env.clock = .ok now ∧
      (serializeNameRecord ⟨name_data, payer.key, now⟩).length ≤ MAX_RECORD_SIZE ∧
      buf = serializeNameRecord ⟨name_data, payer.key, now⟩ ++
        List.replicate
          (MAX_RECORD_SIZE - (serializeNameRecord ⟨name_data, payer.key, now⟩).length)
          0 := by
  rw [register_name] at hok
  by_cases hlen : name_data.length = 0 ∨ MAX_NAME_LENGTH < name_data.length
  · rw [if_pos hlen] at hok
    exact absurd hok (by simp)
  · rw [if_neg hlen] at hok
    push_neg at hlen
    by_cases hutf : validUtf8 name_data = true
    · rw [if_pos hutf] at hok
      cases hrent : env.rent with
      | error e => rw [hrent] at hok; exact absurd hok (by simp)
      | ok minimum_balance =>
        rw [hrent] at hok
        dsimp only at hok
        cases halloc : env.alloc with
        | error e => rw [halloc] at hok; exact absurd hok (by simp)
        | ok u =>
          rw [halloc] at hok
          dsimp only at hok
          cases hclock : env.clock with
          | error e => rw [hclock] at hok; exact absurd hok (by simp)
          | ok now =>
            rw [hclock] at hok
            dsimp only at hok
            unfold serializeInto at hok
            by_cases hfit :
                (serializeNameRecord ⟨name_data, payer.key, now⟩).length ≤
                  (List.replicate MAX_RECORD_SIZE (0:Nat)).length
            · rw [if_pos hfit] at hok
              dsimp only at hok
              simp only [Except.ok.injEq] at hok
              simp only [List.length_replicate] at hfit
              refine ⟨hlen.1, hlen.2, hutf, now, rfl, hfit, ?_⟩
              rw [← hok, List.drop_replicate]
            · rw [if_neg hfit] at hok
              dsimp only at hok
              exact absurd hok (by simp)
    · rw [if_neg hutf] at hok
      exact absurd hok (by simp)

/-- Claim C5: after every successful Register with payer identity `P` (a
32-byte key) under a clock reporting an `i64` time `t`, resolving the
written slot returns the record `{name, owner := P, created_at := t}` — in
particular its owner equals `P`. -/
theorem register_then_resolve_owner (env : Env) (program_id : List Nat)
    (payer name_account : Account) (name_data buf : List Nat) (t : Int)
    (hkey : payer.key.length = 32)
    (hclock : env.clock = .ok t) (hlo : -(2 ^ 63) ≤ t) (hhi : t < 2 ^ 63)
    (hok : (register_name env program_id payer name_account name_data).result =
      .ok buf) :
    (resolve_name buf).1 = .ok ⟨name_data, payer.key, t⟩ := by
  obtain ⟨h0, h64, hutf, now, hnow, hfit, hbuf⟩ := register_ok_elim hok
  rw [hclock] at hnow
  injection hnow with hnow
  subst hnow
  subst hbuf
  have hdec := deserializeNameRecord_serializeNameRecord ⟨name_data, payer.key, t⟩
    (List.replicate
      (MAX_RECORD_SIZE -
        (serializeNameRecord ⟨name_data, payer.key, t⟩).length) 0)
    (by show name_data.length < 2 ^ 32; simp [MAX_NAME_LENGTH] at h64; omega)
    hutf hkey hlo hhi
  simp [resolve_name, hdec]

set_option maxRecDepth 10000 in
theorem register_then_resolve_owner_witness :
    (resolve_name
        (serializeNameRecord ⟨[97], List.replicate 32 1, 1234567890⟩ ++
          List.replicate 211 0)).1 =
      .ok ⟨[97], List.replicate 32 1, 1234567890⟩ :=
  register_then_resolve_owner envOkW pidW payerW acctW [97]
    (serializeNameRecord ⟨[97], List.replicate 32 1, 1234567890⟩ ++
      List.replicate 211 0)
    1234567890 rfl rfl (by decide) (by decide) rfl

/-! ### Dispatch-level claims -/

/-- Claim C2 counterexample: with an unknown opcode (5) and an empty account
list, `process_instruction` fails with `NotEnoughAccountKeys` — account
extraction happens before the opcode check, so the failure is neither
`InvalidInput` nor prior to account access. -/
theorem process_unknown_opcode_without_accounts :
    process_instruction envOkW pidW [] [5] = .error .NotEnoughAccountKeys ∧
    process_instruction envOkW pidW [] [5] ≠ .error .InvalidInstructionData := by
  refine ⟨rfl, fun h => ?_⟩
  rw [show process_instruction envOkW pidW [] [5] = .error .NotEnoughAccountKeys
    from rfl] at h
  exact ProgramError.noConfusion (Except.error.inj h)

/-- Claim C2 (amended): an empty instruction buffer fails with
`InvalidInput` before any account access (the result is the same for every
account list); a non-empty buffer with an opcode other than 0 and 1 fails
with `InvalidInput` only after the three required accounts are extracted,
and when fewer than three accounts are supplied that extraction fails first
with `NotEnoughAccountKeys`. -/
theorem process_dispatch_errors (env : Env) (program_id : List Nat)
    (accounts : List Account) (b : Nat) (rest : List Nat) :
    process_instruction env program_id accounts [] =
      .error .InvalidInstructionData ∧
    (accounts.length < 3 →
      process_instruction env program_id accounts (b :: rest) =
        .error .NotEnoughAccountKeys) ∧
    (b ≠ 0 → b ≠ 1 → 3 ≤ accounts.length →
      process_instruction env program_id accounts (b :: rest) =
        .error .InvalidInstructionData) := by
  refine ⟨rfl, ?_, ?_⟩
  · intro hlt
    rcases accounts with _ | ⟨a1, _ | ⟨a2, _ | ⟨a3, tl⟩⟩⟩
    · rfl
    · rfl
    · rfl
    · simp at hlt
      omega
  · intro h0 h1 h3
    rcases accounts with _ | ⟨a1, _ | ⟨a2, _ | ⟨a3, tl⟩⟩⟩
    · simp at h3
    · simp at h3
    · simp at h3
    · rcases b with _ | _ | k
      · exact absurd rfl h0
      · exact absurd rfl h1
      · rfl

theorem process_dispatch_errors_witness :
    process_instruction envOkW pidW [] [] = .error .InvalidInstructionData ∧
    process_instruction envOkW pidW [] [7] = .error .NotEnoughAccountKeys ∧
    process_instruction envOkW pidW [payerW, acctW, sysW] [7] =
      .error .InvalidInstructionData :=
  ⟨(process_dispatch_errors envOkW pidW [] 7 []).1,
   (process_dispatch_errors envOkW pidW [] 7 []).2.1 (by decide),
   (process_dispatch_errors envOkW pidW [payerW, acctW, sysW] 7 []).2.2
     (by decide) (by decide) (by decide)⟩

/-! ### Resolve on never-written slots -/

theorem readBytes_replicate (k n : Nat) :
    readBytes k (List.replicate n (0:Nat)) =
      if k ≤ n then some (List.replicate k 0, List.replicate (n - k) 0)
      else none := by
  unfold readBytes
  rw [List.length_replicate]
  by_cases h : k ≤ n
  · rw [if_pos h, if_pos h, List.take_replicate, List.drop_replicate,
      Nat.min_eq_left h]
  · rw [if_neg h, if_neg h]

/-- Decoding an all-zero buffer of `n` bytes: below 44 bytes some field read
runs out of input and decoding fails; from 44 bytes on it succeeds with the
zero record (the 4-byte length prefix reads as 0, so the name is empty, the
owner is 32 zero bytes and the timestamp is 0). -/
theorem deserializeNameRecord_replicate_zero (n : Nat) :
    deserializeNameRecord (List.replicate n 0) =
      if 44 ≤ n then
        some (⟨[], List.replicate 32 0, 0⟩, List.replicate (n - 44) 0)
      else none := by
  have hz4 : leToNat [0, 0, 0, 0] = 0 := rfl
  have hvu : validUtf8 [] = true := rfl
  have hts : intFromLeBytes [0, 0, 0, 0, 0, 0, 0, 0] = 0 := rfl
  by_cases h44 : 44 ≤ n
  · have h4 : 4 ≤ n := by omega
    have h32 : 32 ≤ n - 4 := by omega
    have h8 : 8 ≤ n - 36 := by omega
    rw [if_pos h44]
    simp [deserializeNameRecord, deserializeString, deserializePubkey,
      deserializeI64, readBytes_replicate, h4, h32, h8, hz4, hvu, hts,
      Nat.sub_sub]
  · rw [if_neg h44]
    by_cases h4 : 4 ≤ n
    · by_cases h32 : 32 ≤ n - 4
      · have h8 : ¬ 8 ≤ n - 36 := by omega
        simp [deserializeNameRecord, deserializeString, deserializePubkey,
          deserializeI64, readBytes_replicate, h4, h32, h8, hz4, hvu,
          Nat.sub_sub]
      · simp [deserializeNameRecord, deserializeString, deserializePubkey,
          deserializeI64, readBytes_replicate, h4, h32, hz4, hvu, Nat.sub_sub]
    · simp [deserializeNameRecord, deserializeString, deserializePubkey,
        deserializeI64, readBytes_replicate, h4]

set_option maxRecDepth 10000 in
/-- Claim C1 counterexample: resolving a full-capacity all-zero 256-byte
slot (a slot allocated but never written) does not fail with a codec error
— it succeeds and returns the zero record. -/
theorem resolve_zeroed_full_slot_decodes :
    (resolve_name (List.replicate 256 0)).1 = .ok ⟨[], List.replicate 32 0, 0⟩ :=
  rfl

/-- Claim C1 (amended): resolving an all-zero buffer of fewer than 44 bytes
(in particular an empty, truly uninitialized slot) fails with a
`CodecError`; an all-zero buffer of 44 bytes or more — including the full
256-byte capacity — instead decodes successfully to the zero record (empty
name, all-zero owner, timestamp 0). -/
theorem resolve_zeroed_slot_by_size (n : Nat) :
    (n < 44 → (resolve_name (List.replicate n 0)).1 = .error .BorshIoError) ∧
    (44 ≤ n →
      (resolve_name (List.replicate n 0)).1 = .ok ⟨[], List.replicate 32 0, 0⟩) := by
  have h := deserializeNameRecord_replicate_zero n
  constructor
  · intro hn
    simp [resolve_name, h, show ¬ 44 ≤ n by omega]
  · intro hn
    simp [resolve_name, h, hn]

theorem resolve_zeroed_slot_by_size_witness :
    (resolve_name (List.replicate 0 0)).1 = .error .BorshIoError ∧
    (resolve_name (List.replicate 44 0)).1 = .ok ⟨[], List.replicate 32 0, 0⟩ :=
  ⟨(resolve_zeroed_slot_by_size 0).1 (by decide),
   (resolve_zeroed_slot_by_size 44).2 (by decide)⟩

end Sns
